import Mathlib

/-!
Verification development for the dns_audit tool (Rust).

The Rust sources are shallowly embedded: byte buffers become `List Nat`
(each element a byte value below 256), Rust `String`s become `List Char`,
machine integers become `Nat`/`Int` with explicit bounds where overflow or
range checks matter, and fallible functions return `Option`.  Each
definition mirrors one function of the source tree (the source file and
function are named in its doc comment).
-/

namespace DnsAudit

/-- ASCII uppercase of one character, mirroring Rust's
`char::to_ascii_uppercase` (only `a`..`z` are mapped). -/
def upChar (c : Char) : Char :=
  if 'a' ≤ c ∧ c ≤ 'z' then Char.ofNat (c.toNat - 32) else c

/-- ASCII uppercase of a string, mirroring `str::to_ascii_uppercase`. -/
def upStr (s : List Char) : List Char := s.map upChar

/-- String ends with `"."`, mirroring Rust `str::ends_with(".")`. -/
def endsWithDot (s : List Char) : Bool := s.getLast? == some '.'

/-- String starts with `"."`, mirroring Rust `str::starts_with(".")`. -/
def startsWithDot (s : List Char) : Bool := s.head? == some '.'

/-- Numeric value of a run of ASCII digits. -/
def natFromDigits (ds : List Char) : Nat :=
  ds.foldl (fun a c => a * 10 + (c.toNat - 48)) 0

/-- Rust `str::parse` for a signed bounded integer type, with bounds
`lo`/`hi`: optional leading `+`/`-`, then at least one ASCII digit, and
the value must fit the range; anything else is `none` (Rust `Err`). -/
def parseIntIn (lo hi : Int) (s : List Char) : Option Int :=
  let (neg, ds) :=
    match s with
    | '+' :: rest => (false, rest)
    | '-' :: rest => (true, rest)
    | _ => (false, s)
  if ds = [] ∨ ¬ ds.all Char.isDigit then none
  else
    let v : Int := (if neg then -1 else 1) * (natFromDigits ds : Int)
    if lo ≤ v ∧ v ≤ hi then some v else none

/-- Rust `str::parse::<i32>`. -/
def parseI32 (s : List Char) : Option Int := parseIntIn (-2147483648) 2147483647 s

/-- Rust `str::parse` for an unsigned bounded integer type (`-` is
rejected outright): optional leading `+`, then digits, value at most
`hi`. -/
def parseUIntIn (hi : Nat) (s : List Char) : Option Nat :=
  let ds := match s with
    | '+' :: rest => rest
    | _ => s
  if ds = [] ∨ ¬ ds.all Char.isDigit ∨ s.head? = some '-' then none
  else
    let v := natFromDigits ds
    if v ≤ hi then some v else none

/-- Rust `str::parse::<u16>`. -/
def parseU16 (s : List Char) : Option Nat := parseUIntIn 65535 s

/-- Rust `str::parse::<u8>`. -/
def parseU8 (s : List Char) : Option Nat := parseUIntIn 255 s

/-- Rust `str::parse::<u32>`. -/
def parseU32 (s : List Char) : Option Nat := parseUIntIn 4294967295 s

/-! ## Tokenizer string escaping (src/zone/tokenizer.rs) -/

/-- Whether a byte is an ASCII digit, mirroring the char range checks
`m >= '0' && m <= '9'` in `ZoneLines::unescape`. -/
def isDigitByte (c : Nat) : Bool := 48 ≤ c && c ≤ 57

/-- `ZoneLines::escape` (src/zone/tokenizer.rs:437-460): `"` becomes
`\"`; bytes below `0x20` or at/above `0x7f` become `\DDD` with three
zero-padded decimal digits (the Rust code formats `c as u8`, modelled by
`c % 256`); every other byte is copied literally.  Note that a literal
backslash is NOT escaped. -/
def escape : List Nat → List Nat
  | [] => []
  | c :: rest =>
    (if c = 34 then [92, 34]
     else if c % 256 < 32 ∨ 127 ≤ c % 256 then
       [92, 48 + c % 256 / 100, 48 + c % 256 / 10 % 10, 48 + c % 256 % 10]
     else [c]) ++ escape rest

mutual

/-- `ZoneLines::unescape` (src/zone/tokenizer.rs:358-432), the single
Rust loop factored by how many characters past a backslash have been
consumed.  After a backslash: three decimal digits are parsed with
`str::parse::<u8>` and emit that byte when at most 255 (otherwise the
three digits are emitted without the backslash); a digit followed by a
non-digit within the next two characters drops all three consumed
characters; a non-digit is emitted literally (the backslash is dropped);
a trailing backslash is emitted as-is, and truncated digit runs at the
end are emitted without the backslash. -/
def unescape : List Nat → List Nat
  | [] => []
  | c :: rest => if c = 92 then unescEsc rest else c :: unescape rest

/-- Continuation of `unescape` after a backslash. -/
def unescEsc : List Nat → List Nat
  | [] => [92]
  | m :: rest2 => if isDigitByte m then unescDigit m rest2 else m :: unescape rest2

/-- Continuation of `unescape` after a backslash and one digit `m`. -/
def unescDigit (m : Nat) : List Nat → List Nat
  | [] => [m]
  | m2 :: rest3 => unescDigit2 m m2 rest3

/-- Continuation of `unescape` after a backslash, digit `m` and a second
consumed character `m2`. -/
def unescDigit2 (m m2 : Nat) : List Nat → List Nat
  | [] => [m, m2]
  | m3 :: rest4 =>
    if isDigitByte m2 && isDigitByte m3 then
      if (m - 48) * 100 + (m2 - 48) * 10 + (m3 - 48) ≤ 255 then
        ((m - 48) * 100 + (m2 - 48) * 10 + (m3 - 48)) :: unescape rest4
      else m :: m2 :: m3 :: unescape rest4
    else unescape rest4

end

/-! ## Record names (src/zone/record.rs) -/

/-- `RecordName` (src/zone/record.rs:144-147): the zone-file literal and
the fully-qualified form. -/
structure RecordName where
  name : List Char
  fqdn : List Char
deriving DecidableEq, Repr

/-- `RecordName::new` (src/zone/record.rs:150-161): the fqdn is set to the
literal immediately when the literal already ends with a dot. -/
def RecordName.new (dn : List Char) : RecordName :=
  { name := dn, fqdn := if endsWithDot dn then dn else [] }

/-- `RecordName::origin` (src/zone/record.rs:163-181): when the fqdn is
still empty, `@` takes the origin, a literal ending in `.` is kept, and
any other literal is extended with `.` and the origin — except that the
dot is not inserted when the literal already STARTS with a dot. -/
def RecordName.applyOrigin (r : RecordName) (origin : List Char) : RecordName :=
  if r.fqdn.length = 0 then
    if r.name = ['@'] then { r with fqdn := origin }
    else if ¬ endsWithDot r.name then
      { r with fqdn := (if startsWithDot r.name then r.name else r.name ++ ['.']) ++ origin }
    else { r with fqdn := r.name }
  else r

/-- Owner-name resolution as performed by `Zone::create`
(src/zone.rs:67-74): the owner starts out as a default `RecordName` whose
`name` is the line's first token (src/zone/record.rs:387-388) and whose
`fqdn` is empty, and `origin` is then applied. -/
def resolveFqdn (x o : List Char) : List Char :=
  (RecordName.applyOrigin { name := x, fqdn := [] } o).fqdn

/-! ## Tokens (src/zone/tokenizer.rs) -/

/-- `TokenType` (src/zone/tokenizer.rs:22-32). -/
inductive TokenType
  | TypeNone | TypeWhite | TypeParenSt | TypeParenEnd
  | TypeToken | TypeNumber | TypeString | TypeDirective
deriving DecidableEq, Repr

/-- `ZoneToken` (src/zone/tokenizer.rs:34-38); the diagnostic line number
is omitted (it only feeds error messages, which are collapsed to `none`
throughout this development). -/
structure ZoneToken where
  token : List Char
  token_type : TokenType
deriving DecidableEq, Repr

/-- First token that is not whitespace, as consumed by
`ZoneDirective::from_iter` (src/zone/record.rs:627-644) and by the TTL
position of `ZoneRecord::from_iter`. -/
def firstNonWhite : List ZoneToken → Option ZoneToken
  | [] => none
  | t :: rest => if t.token_type = TokenType.TypeWhite then firstNonWhite rest else some t

/-! ## Classes and record types (src/query.rs, src/zone/record.rs) -/

/-- `NSClass` (src/query.rs:60-70). -/
inductive NSClass
  | C_INVALID | C_IN | C_2 | C_CHAOS | C_HS | C_NONE | C_ANY | C_MAX
deriving DecidableEq, Repr

/-- `NSClass::from_string` (src/query.rs:93-100). -/
def NSClass.fromString (s : List Char) : NSClass :=
  if upStr s = "IN".toList then .C_IN
  else if upStr s = "CH".toList then .C_CHAOS
  else if upStr s = "HS".toList then .C_HS
  else .C_INVALID

/-- `RecordType` (src/zone/record.rs:35-85). -/
inductive RecordType
  | A | AAAA | AFSDB | APL | CAA | CDNSKEY | CDS | CERT | CNAME | CSYNC
  | DHCID | DLV | DNAME | DNSKEY | DS | EUI48 | EUI64 | HINFO | HIP
  | HTTPS | IPSECKEY | KEY | KX | LOC | MX | NAPTR | NS | NSEC | NSEC3
  | NSEC3PARAM | OPENPGPKEY | PTR | RRSIG | RP | SIG | SMIMEA | SOA | SRV
  | SSHFP | SVCB | TA | TKEY | TLSA | TSIG | TXT | URI | ZONEMD
  | RecordTypeOther | Directive
deriving DecidableEq, Repr

/-- `RecordType::from_string` (src/zone/record.rs:248-301). -/
def RecordType.fromString (s : List Char) : RecordType :=
  let u := upStr s
  if u = "A".toList then .A
  else if u = "AAAA".toList then .AAAA
  else if u = "AFSDB".toList then .AFSDB
  else if u = "APL".toList then .APL
  else if u = "CAA".toList then .CAA
  else if u = "CDNSKEY".toList then .CDNSKEY
  else if u = "CDS".toList then .CDS
  else if u = "CERT".toList then .CERT
  else if u = "CNAME".toList then .CNAME
  else if u = "CSYNC".toList then .CSYNC
  else if u = "DHCID".toList then .DHCID
  else if u = "DLV".toList then .DLV
  else if u = "DNAME".toList then .DNAME
  else if u = "DNSKEY".toList then .DNSKEY
  else if u = "DS".toList then .DS
  else if u = "EUI48".toList then .EUI48
  else if u = "EUI64".toList then .EUI64
  else if u = "HINFO".toList then .HINFO
  else if u = "HIP".toList then .HIP
  else if u = "HTTPS".toList then .HTTPS
  else if u = "IPSECKEY".toList then .IPSECKEY
  else if u = "KEY".toList then .KEY
  else if u = "KX".toList then .KX
  else if u = "LOC".toList then .LOC
  else if u = "MX".toList then .MX
  else if u = "NAPTR".toList then .NAPTR
  else if u = "NS".toList then .NS
  else if u = "NSEC".toList then .NSEC
  else if u = "NSEC3".toList then .NSEC3
  else if u = "NSEC3PARAM".toList then .NSEC3PARAM
  else if u = "OPENPGPKEY".toList then .OPENPGPKEY
  else if u = "PTR".toList then .PTR
  else if u = "RRSIG".toList then .RRSIG
  else if u = "RP".toList then .RP
  else if u = "SIG".toList then .SIG
  else if u = "SMIMEA".toList then .SMIMEA
  else if u = "SOA".toList then .SOA
  else if u = "SRV".toList then .SRV
  else if u = "SSHFP".toList then .SSHFP
  else if u = "SVCB".toList then .SVCB
  else if u = "TA".toList then .TA
  else if u = "TKEY".toList then .TKEY
  else if u = "TLSA".toList then .TLSA
  else if u = "TSIG".toList then .TSIG
  else if u = "TXT".toList then .TXT
  else if u = "URI".toList then .URI
  else if u = "ZONEMD".toList then .ZONEMD
  else .RecordTypeOther

/-! ## Address literals and base64 (std services used by src/zone/rr.rs) -/

/-- Split a character list on a separator character (an empty input gives
one empty part, as Rust's `str::split` does). -/
def splitOnChar (sep : Char) : List Char → List (List Char)
  | [] => [[]]
  | c :: rest =>
    let r := splitOnChar sep rest
    if c = sep then [] :: r
    else
      match r with
      | [] => [[c]]
      | h :: t => (c :: h) :: t

/-- One dotted-quad octet as accepted by Rust's `Ipv4Addr::from_str`:
one to three ASCII digits, no leading zero, value at most 255. -/
def parseOctet (s : List Char) : Option Nat :=
  if s = [] ∨ ¬ s.all Char.isDigit then none
  else if 1 < s.length ∧ s.head? = some '0' then none
  else if 3 < s.length then none
  else
    let v := natFromDigits s
    if v ≤ 255 then some v else none

/-- Rust `Ipv4Addr::from_str`: exactly four octets separated by dots.
The address is returned as its 32-bit value. -/
def parseIpv4 (s : List Char) : Option Nat :=
  match (splitOnChar '.' s).mapM parseOctet with
  | some [a, b, c, d] => some (((a * 256 + b) * 256 + c) * 256 + d)
  | _ => none

/-- Value of one hexadecimal digit. -/
def hexVal (c : Char) : Nat :=
  if c.isDigit then c.toNat - 48
  else if 'a' ≤ c ∧ c ≤ 'f' then c.toNat - 87
  else c.toNat - 55

/-- Whether a character is a hexadecimal digit. -/
def isHexDigit (c : Char) : Bool :=
  c.isDigit || ('a' ≤ c && c ≤ 'f') || ('A' ≤ c && c ≤ 'F')

/-- One 16-bit group of an IPv6 literal: one to four hex digits. -/
def parseHexGroup (s : List Char) : Option Nat :=
  if s = [] ∨ 4 < s.length ∨ ¬ s.all isHexDigit then none
  else some (s.foldl (fun a c => a * 16 + hexVal c) 0)

/-- Split at the first occurrence of `::`, if any. -/
def splitDoubleColon : List Char → Option (List Char × List Char)
  | ':' :: ':' :: rest => some ([], rest)
  | c :: rest => (splitDoubleColon rest).map (fun p => (c :: p.1, p.2))
  | [] => none

/-- Parse a colon-separated group sequence of an IPv6 literal.  When
`allowV4` is set, the final part may be an embedded IPv4 literal, which
contributes two groups. -/
def parseGroupSeq (allowV4 : Bool) : List (List Char) → Option (List Nat)
  | [] => some []
  | [p] =>
    match parseHexGroup p with
    | some v => some [v]
    | none =>
      if allowV4 then (parseIpv4 p).map (fun v => [v / 65536, v % 65536]) else none
  | p :: rest => do
      let v ← parseHexGroup p
      let vs ← parseGroupSeq allowV4 rest
      pure (v :: vs)

/-- Group list of one side of an IPv6 literal (an empty side has no
groups). -/
def parseGroupsOf (allowV4 : Bool) (s : List Char) : Option (List Nat) :=
  if s = [] then some [] else parseGroupSeq allowV4 (splitOnChar ':' s)

/-- Rust `Ipv6Addr::from_str`: eight 16-bit hex groups separated by
colons, at most one `::` standing for a run of zero groups, and an
optional embedded IPv4 literal as the final two groups.  The address is
returned as its 128-bit value. -/
def parseIpv6 (s : List Char) : Option Nat :=
  let assemble := fun (gs : List Nat) => gs.foldl (fun a g => a * 65536 + g) 0
  match splitDoubleColon s with
  | none => do
      let gs ← parseGroupsOf true s
      if gs.length = 8 then pure (assemble gs) else none
  | some (l, r) => do
      let gl ← parseGroupsOf false l
      let gr ← parseGroupsOf true r
      if gl.length + gr.length ≤ 7 then
        pure (assemble (gl ++ List.replicate (8 - gl.length - gr.length) 0 ++ gr))
      else none

/-- Value of one base64 alphabet character (standard alphabet). -/
def b64Val (c : Char) : Option Nat :=
  if 'A' ≤ c ∧ c ≤ 'Z' then some (c.toNat - 65)
  else if 'a' ≤ c ∧ c ≤ 'z' then some (c.toNat - 71)
  else if '0' ≤ c ∧ c ≤ '9' then some (c.toNat + 4)
  else if c = '+' then some 62
  else if c = '/' then some 63
  else none

/-- Base64 decoding with the `base64` crate's `STANDARD` engine: input
length a multiple of four, canonical `=` padding only in the final
quantum, and non-zero trailing bits rejected. -/
def base64Decode : List Char → Option (List Nat)
  | [] => some []
  | c1 :: c2 :: c3 :: c4 :: rest => do
      let v1 ← b64Val c1
      let v2 ← b64Val c2
      if c3 = '=' then
        if c4 = '=' ∧ rest = [] then
          if v2 % 16 = 0 then some [v1 * 4 + v2 / 16] else none
        else none
      else do
        let v3 ← b64Val c3
        if c4 = '=' then
          if rest = [] then
            if v3 % 4 = 0 then some [v1 * 4 + v2 / 16, v2 % 16 * 16 + v3 / 4] else none
          else none
        else do
          let v4 ← b64Val c4
          let out ← base64Decode rest
          pure ((v1 * 4 + v2 / 16) :: (v2 % 16 * 16 + v3 / 4) :: (v3 % 4 * 64 + v4) :: out)
  | _ => none

/-! ## RDATA variants (src/zone/rr.rs) -/

/-- Tagged sum standing for the `Box<dyn RecordRDATA>` trait objects of
src/zone/rr.rs (`RDATAa`, `RDATAaaaa`, `RDATANameRR`, `RDATAmx`,
`RDATAtxt`, `RDATAsoa`, `RDATAds`, `RDATAdnskey`, `RDATAgeneric`).
IPv4/IPv6 addresses are carried as their 32/128-bit values. -/
inductive RDATA
  | a (ip : Nat)
  | aaaa (ip : Nat)
  | nameRR (name : RecordName)
  | mx (weight : Nat) (target : RecordName)
  | txt (value : List Char)
  | soa (mname rname : RecordName) (serial refresh retry expire minimum : Nat)
  | ds (key_tag algorithm digest_type : Nat) (digest : List Nat)
  | dnskey (flags protocol algorithm : Nat) (public_key : List Nat)
  | generic (tokens : List ZoneToken) (wire_data : List Nat)
deriving DecidableEq, Repr

/-- Which RDATA shape `rr::create_from_type` (src/zone/rr.rs:855-892)
allocates for a record type: A, AAAA, CNAME, DNAME, MX, NS, TXT, SOA,
DNSKEY and DS get their specific variants; every other type (PTR
included) gets the generic one. -/
def rdataMatchesType : RecordType → RDATA → Bool
  | .A, .a _ => true
  | .AAAA, .aaaa _ => true
  | .CNAME, .nameRR _ => true
  | .DNAME, .nameRR _ => true
  | .MX, .mx _ _ => true
  | .NS, .nameRR _ => true
  | .TXT, .txt _ => true
  | .SOA, .soa .. => true
  | .DNSKEY, .dnskey .. => true
  | .DS, .ds .. => true
  | t, .generic .. =>
    match t with
    | .A | .AAAA | .CNAME | .DNAME | .MX | .NS | .TXT | .SOA | .DNSKEY | .DS => false
    | _ => true
  | _, _ => false

/-- `RecordRDATA::origin` for each variant (src/zone/rr.rs): only the
name-bearing variants resolve names against the origin. -/
def RDATA.applyOrigin (rd : RDATA) (origin : List Char) : RDATA :=
  match rd with
  | .nameRR n => .nameRR (n.applyOrigin origin)
  | .mx w t => .mx w (t.applyOrigin origin)
  | .soa m r s re rt e mi => .soa (m.applyOrigin origin) (r.applyOrigin origin) s re rt e mi
  | x => x

/-- Whether every token of a list is whitespace, mirroring
`ZoneToken::ignore_white` (src/zone/tokenizer.rs:52-66) and the
equivalent trailing loop of `RDATAa::from_tokens`. -/
def allWhite (ts : List ZoneToken) : Bool :=
  ts.all (fun t => t.token_type = TokenType.TypeWhite)

/-- Concatenation of the texts of all tokens of a list. -/
def catTokens (ts : List ZoneToken) : List Char :=
  ts.foldl (fun acc t => acc ++ t.token) []

/-- Concatenation of the texts of the non-whitespace tokens of a list
(the `RDATAdnskey::from_tokens` public-key loop). -/
def catNonWhiteTokens (ts : List ZoneToken) : List Char :=
  ts.foldl (fun acc t => if t.token_type = TokenType.TypeWhite then acc else acc ++ t.token) []

/-- `ZoneToken::expect_int` (src/zone/tokenizer.rs:71-89) for one token:
the token must have the number type and parse under `p`. -/
def expectInt (p : List Char → Option Nat) (t : ZoneToken) : Option Nat :=
  if t.token_type = TokenType.TypeNumber then p t.token else none

/-- The per-type `from_tokens` implementations of src/zone/rr.rs, applied
to the collected rdata token list.  Errors (including the `unwrap` panics
of the DS/DNSKEY base64 decodes) are collapsed to `none`. -/
def rdataFromTokens (rt : RecordType) (tokens : List ZoneToken) : Option RDATA :=
  match rt with
  | .A =>
    match tokens with
    | [] => none
    | t :: rest => do
        let ip ← parseIpv4 t.token
        if allWhite rest then some (.a ip) else none
  | .AAAA =>
    match tokens with
    | [] => none
    | t :: rest => do
        let ip ← parseIpv6 t.token
        if allWhite rest then some (.aaaa ip) else none
  | .CNAME | .DNAME | .NS =>
    match tokens with
    | [] => none
    | t :: rest =>
        if allWhite rest then some (.nameRR (RecordName.new t.token)) else none
  | .MX =>
    match tokens with
    | t1 :: t2 :: rest => do
        let w ← expectInt parseU16 t1
        if allWhite rest then some (.mx w (RecordName.new t2.token)) else none
    | _ => none
  | .TXT => some (.txt (catTokens tokens))
  | .SOA =>
    match tokens with
    | t1 :: t2 :: n1 :: n2 :: n3 :: n4 :: n5 :: _ => do
        if t1.token_type = TokenType.TypeWhite ∨ t2.token_type = TokenType.TypeWhite then none
        else do
          let serial ← expectInt parseU32 n1
          let refresh ← expectInt parseU32 n2
          let retry ← expectInt parseU32 n3
          let expire ← expectInt parseU32 n4
          let minimum ← expectInt parseU32 n5
          some (.soa { name := t1.token, fqdn := [] } { name := t2.token, fqdn := [] }
            serial refresh retry expire minimum)
    | _ => none
  | .DS =>
    match tokens with
    | t1 :: t2 :: t3 :: rest => do
        let kt ← expectInt parseU16 t1
        let alg ← expectInt parseU8 t2
        let dt ← expectInt parseU8 t3
        let digest ← base64Decode (catTokens rest)
        some (.ds kt alg dt digest)
    | _ => none
  | .DNSKEY =>
    match tokens with
    | t1 :: t2 :: t3 :: rest => do
        let fl ← expectInt parseU16 t1
        let proto ← expectInt parseU8 t2
        let alg ← expectInt parseU8 t3
        let key ← base64Decode (catNonWhiteTokens rest)
        some (.dnskey fl proto alg key)
    | _ => none
  | _ => some (.generic tokens [])

/-! ## Zone records and the zone-file pass (src/zone/record.rs, src/zone.rs) -/

/-- `ZoneRecord` (src/zone/record.rs:227-234). -/
structure ZoneRecordM where
  name : RecordName
  ttl : Int
  rclass : NSClass
  record_type : RecordType
  record_type_other : Option (List Char)
  rdata : Option RDATA
deriving DecidableEq, Repr

/-- `ZoneRecord`'s `Default` (src/zone/record.rs:459-472). -/
def ZoneRecordM.default : ZoneRecordM :=
  { name := { name := [], fqdn := [] }, ttl := 0, rclass := .C_IN,
    record_type := .RecordTypeOther, record_type_other := none, rdata := none }

/-- `ZoneDirective` (src/zone/record.rs:620-623). -/
structure ZoneDirectiveM where
  name : List Char
  value : List Char
deriving DecidableEq, Repr

/-- Either parsed line shape (`Box<dyn IZoneRecord>` in the source). -/
inductive ZoneItem
  | directive (d : ZoneDirectiveM)
  | record (r : ZoneRecordM)
deriving DecidableEq, Repr

/-- `RecordPos` (src/zone/record.rs:238-244). -/
inductive RecordPos
  | TTL | IN | RTYPE | RDATA
deriving DecidableEq, Repr

/-- Whether a token text names a record class, mirroring the explicit
`IN`/`CS`/`CH`/`HS` comparisons in `ZoneRecord::from_iter`
(src/zone/record.rs:529-553). -/
def isClassTok (s : List Char) : Bool :=
  upStr s = "IN".toList || upStr s = "CS".toList ||
  upStr s = "CH".toList || upStr s = "HS".toList

/-- One non-whitespace token step of the `ZoneRecord::from_iter` position
machine (src/zone/record.rs:521-563). -/
def fromIterStep (pos : RecordPos) (r : ZoneRecordM) (acc : List ZoneToken)
    (tok : ZoneToken) : Option (RecordPos × ZoneRecordM × List ZoneToken) :=
  match pos with
  | .TTL =>
    match parseI32 tok.token with
    | some t => some (.IN, { r with ttl := t }, acc)
    | none =>
      if isClassTok tok.token then
        some (.RTYPE, { r with rclass := NSClass.fromString tok.token }, acc)
      else none
  | .IN =>
    if isClassTok tok.token then
      some (.RTYPE, { r with rclass := NSClass.fromString tok.token }, acc)
    else none
  | .RTYPE =>
    let rt := RecordType.fromString tok.token
    some (.RDATA,
      { r with record_type := rt,
               record_type_other := if rt = .RecordTypeOther then some tok.token else none },
      acc)
  | .RDATA => some (.RDATA, r, acc ++ [tok])

/-- The token loop of `ZoneRecord::from_iter` (src/zone/record.rs:511-579):
whitespace tokens are skipped; each processed token must be followed by a
whitespace token (or the end of the line), which is consumed. -/
def fromIterLoop : List ZoneToken → RecordPos → ZoneRecordM → List ZoneToken →
    Option (ZoneRecordM × List ZoneToken)
  | [], _, r, acc => some (r, acc)
  | tok :: rest, pos, r, acc =>
    if tok.token_type = TokenType.TypeWhite then fromIterLoop rest pos r acc
    else
      match fromIterStep pos r acc tok with
      | none => none
      | some (pos', r', acc') =>
        match rest with
        | [] => some (r', acc')
        | a :: rest2 =>
          if a.token_type = TokenType.TypeWhite then fromIterLoop rest2 pos' r' acc'
          else none

/-- `ZoneRecord::from_iter` (src/zone/record.rs:505-588): run the token
loop starting at the TTL position, then parse the collected rdata tokens
for the record type found. -/
def ZoneRecordM.fromIter (r0 : ZoneRecordM) (tokens : List ZoneToken) : Option ZoneRecordM :=
  match fromIterLoop tokens .TTL r0 [] with
  | none => none
  | some (r, rdata_tokens) =>
    match rdataFromTokens r.record_type rdata_tokens with
    | none => none
    | some rd => some { r with rdata := some rd }

/-- `ZoneRecord::create` (src/zone/record.rs:372-394): an empty line is
an error; a first token starting with `$` builds a directive whose name
drops the `$` and whose value is the next non-whitespace token; any other
first token becomes the owner-name literal of a record parsed by
`from_iter`. -/
def zoneRecordCreate (line : List ZoneToken) : Option ZoneItem :=
  match line with
  | [] => none
  | tok :: rest =>
    if tok.token.head? = some '$' then
      (firstNonWhite rest).map (fun v => .directive { name := tok.token.drop 1, value := v.token })
    else
      (ZoneRecordM.fromIter
        { ZoneRecordM.default with name := { name := tok.token, fqdn := [] } } rest).map .record

/-- `ZoneRecord::origin` (src/zone/record.rs:400-408): resolve the owner
name and the rdata names against the origin. -/
def ZoneRecordM.applyOrigin (r : ZoneRecordM) (origin : List Char) : ZoneRecordM :=
  { r with name := r.name.applyOrigin origin,
           rdata := r.rdata.map (·.applyOrigin origin) }

/-- One item of the directive/record pass of `Zone::create`
(src/zone.rs:51-79), threading the `(origin, ttl)` state: an `$ORIGIN`
directive replaces the origin, a `$TTL` directive replaces the default
TTL when its value parses as an `i32` (and is ignored otherwise), and a
record gets its origin applied and, when its own ttl is zero, the current
default TTL. -/
def zonePassItem (st : List Char × Int) (it : ZoneItem) : (List Char × Int) × ZoneItem :=
  match it with
  | .directive d =>
    if upStr d.name = "ORIGIN".toList then ((d.value, st.2), .directive d)
    else if upStr d.name = "TTL".toList then
      ((st.1, (parseI32 d.value).getD st.2), .directive d)
    else (st, .directive d)
  | .record r =>
    let r1 := r.applyOrigin st.1
    let r2 := if r1.ttl = 0 then { r1 with ttl := st.2 } else r1
    (st, .record r2)

/-- The full directive/record pass of `Zone::create` over the parsed
items, in file order. -/
def zonePassGo (st : List Char × Int) : List ZoneItem → List ZoneItem
  | [] => []
  | it :: rest =>
    let p := zonePassItem st it
    p.2 :: zonePassGo p.1 rest

/-- `Zone::create` (src/zone.rs:32-82) from tokenized lines: parse each
line with `ZoneRecord::create` (failing on the first bad line), then run
the directive/record pass with the supplied origin and an initial default
TTL of 0. -/
def zoneCreate (origin0 : List Char) (lines : List (List ZoneToken)) : Option (List ZoneItem) :=
  (lines.mapM zoneRecordCreate).map (zonePassGo (origin0, 0))

/-- Default TTL accumulated by the `Zone::create` pass over a list of
items, starting from `t`: each `$TTL` directive whose value parses as an
`i32` replaces the running value. -/
def lastTTLFrom (t : Int) (items : List ZoneItem) : Int :=
  items.foldl
    (fun acc it =>
      match it with
      | .directive d =>
        if upStr d.name = "TTL".toList then (parseI32 d.value).getD acc else acc
      | .record _ => acc)
    t

/-- Value of the most recent `$TTL` directive of an item list (0 when
there is none), the reference value for TTL inheritance. -/
def lastTTLDirective (items : List ZoneItem) : Int := lastTTLFrom 0 items

/-! ## DNS wire header (src/query.rs) -/

/-- `OPCODE` (src/query.rs:466-472). -/
inductive OPCODE
  | O_QUERY | O_IQUERY | O_STATUS | O_NOTIFY | O_UPDATE
deriving DecidableEq, Repr

/-- `OPCODE::as_u8` (the `repr` values). -/
def OPCODE.as_u8 : OPCODE → Nat
  | .O_QUERY => 0
  | .O_IQUERY => 1
  | .O_STATUS => 2
  | .O_NOTIFY => 4
  | .O_UPDATE => 5

/-- `OPCODE::from_u8` (src/query.rs:483-492); unknown values fall back to
`O_QUERY`. -/
def OPCODE.from_u8 (n : Nat) : OPCODE :=
  if n = 0 then .O_QUERY
  else if n = 1 then .O_IQUERY
  else if n = 2 then .O_STATUS
  else if n = 4 then .O_NOTIFY
  else if n = 5 then .O_UPDATE
  else .O_QUERY

/-- `RCODE` (src/query.rs:403-415). -/
inductive RCODE
  | NOERROR | FORMERR | SERVFAIL | NXDOMAIN | NOTIMPL | REFUSED
  | YXDOMAIN | YXRRSET | NXRRSET | NOTAUTH | NOTZONE
deriving DecidableEq, Repr

/-- `RCODE::as_u8` (the `repr` values). -/
def RCODE.as_u8 : RCODE → Nat
  | .NOERROR => 0
  | .FORMERR => 1
  | .SERVFAIL => 2
  | .NXDOMAIN => 3
  | .NOTIMPL => 4
  | .REFUSED => 5
  | .YXDOMAIN => 6
  | .YXRRSET => 7
  | .NXRRSET => 8
  | .NOTAUTH => 9
  | .NOTZONE => 10

/-- `RCODE::from_u8` (src/query.rs:425-440); unknown values fall back to
`NOTIMPL`. -/
def RCODE.from_u8 (n : Nat) : RCODE :=
  if n = 0 then .NOERROR
  else if n = 1 then .FORMERR
  else if n = 2 then .SERVFAIL
  else if n = 3 then .NXDOMAIN
  else if n = 4 then .NOTIMPL
  else if n = 5 then .REFUSED
  else if n = 6 then .YXDOMAIN
  else if n = 7 then .YXRRSET
  else if n = 8 then .NXRRSET
  else if n = 9 then .NOTAUTH
  else if n = 10 then .NOTZONE
  else .NOTIMPL

/-- `Header` (src/query.rs:693-707); the 16-bit fields carry values below
65536 and `z` is a byte. -/
structure Header where
  id : Nat
  qr : Bool
  opcode : OPCODE
  aa : Bool
  tc : Bool
  rd : Bool
  ra : Bool
  z : Nat
  rcode : RCODE
  qdcount : Nat
  ancount : Nat
  nscount : Nat
  arcount : Nat
deriving DecidableEq, Repr

/-- Big-endian byte pair of a 16-bit value (`u16::to_be_bytes`). -/
def be16 (n : Nat) : List Nat := [n / 256 % 256, n % 256]

/-- `Header::write` (src/query.rs:715-752).  Note the bit positions the
source uses for the first flag byte: `rd` at bit 7, `tc` at bit 6, `aa`
at bit 5, the opcode at bits 4..1, and `qr` at bit 0; and for the second:
the rcode at bits 7..4, `z` at bits 3..1, and `ra` at bit 0. -/
def Header.write (h : Header) : List Nat :=
  let flag1 :=
    (if h.rd then 128 else 0) |||
    (if h.tc then 64 else 0) |||
    (if h.aa then 32 else 0) |||
    (30 &&& (h.opcode.as_u8 <<< 1)) |||
    (if h.qr then 1 else 0)
  let flag2 :=
    (240 &&& (h.rcode.as_u8 <<< 4)) |||
    (14 &&& (h.z <<< 1)) |||
    (if h.ra then 1 else 0)
  be16 h.id ++ [flag1, flag2] ++ be16 h.qdcount ++ be16 h.ancount ++
    be16 h.nscount ++ be16 h.arcount

/-- `Header::read` (src/query.rs:759-778), reading the twelve bytes at
the start of the supplied buffer: `qr` from bit 7 of the first flag byte,
the opcode from `(flag1 & 0b01111000) >> 1`, `aa`/`tc`/`rd` from bits
2/1/0, `ra` from bit 7 of the second flag byte, `z` from bits 6..4 and
the rcode from bits 3..0. -/
def Header.read (b : List Nat) : Header :=
  let flag1 := b.getD 2 0
  let flag2 := b.getD 3 0
  { id := b.getD 0 0 * 256 + b.getD 1 0
    qr := flag1 &&& 128 ≠ 0
    opcode := OPCODE.from_u8 ((flag1 &&& 120) >>> 1)
    aa := flag1 &&& 4 ≠ 0
    tc := flag1 &&& 2 ≠ 0
    rd := flag1 &&& 1 ≠ 0
    ra := flag2 &&& 128 ≠ 0
    z := (flag2 &&& 112) >>> 4
    rcode := RCODE.from_u8 (flag2 &&& 15)
    qdcount := b.getD 4 0 * 256 + b.getD 5 0
    ancount := b.getD 6 0 * 256 + b.getD 7 0
    nscount := b.getD 8 0 * 256 + b.getD 9 0
    arcount := b.getD 10 0 * 256 + b.getD 11 0 }

/-! ## Performance measurement of one server (src/root.rs) -/

/-- The five-query measurement loop of `Root::test_main`
(src/root.rs:428-451) for one server.  Each of the five SOA queries is
either a success carrying its elapsed duration (`some d`, in
nanoseconds) or a failure (`none`); successes add their duration to the
running total and set the `is_ok` flag. -/
def testLoop (qs : List (Option Nat)) : Nat × Bool :=
  qs.foldl
    (fun s q =>
      match q with
      | some d => (s.1 + d, true)
      | none => s)
    (0, false)

/-- The speed recorded for one server by `Root::test_main`
(src/root.rs:452-456): the accumulated duration divided by five when the
`is_ok` flag was set, `None` otherwise.  `Duration::div_f32(5f32)` is
modelled as exact division of the nanosecond count. -/
def serverSpeed (qs : List (Option Nat)) : Option Nat :=
  let r := testLoop qs
  if r.2 then some (r.1 / 5) else none

/-! ## Nameserver lists and their ordering (src/root.rs) -/

/-- IP address carried by a `NameServer` entry (`std::net::IpAddr`), as
its 32-bit or 128-bit value. -/
inductive IpAddr
  | v4 (a : Nat)
  | v6 (a : Nat)
deriving DecidableEq, Repr

/-- `NameServer` (src/root.rs:35-40); the speed is a duration in
nanoseconds when measured. -/
structure NameServer where
  server_name : List Char
  ip : IpAddr
  speed : Option Nat
deriving DecidableEq, Repr

/-- `NameServersForZone` (src/root.rs:67-71). -/
structure NameServersForZone where
  zone_name : List Char
  servers : List NameServer
deriving DecidableEq, Repr

/-- The comparator closure of `NameServersForZone::sort`
(src/root.rs:82-93): two unmeasured entries are equal, a measured entry
precedes an unmeasured one, and two measured entries compare by their
durations. -/
def speedCompare (a b : NameServer) : Ordering :=
  match a.speed, b.speed with
  | none, none => .eq
  | some _, none => .lt
  | none, some _ => .gt
  | some x, some y => compare x y

/-- `NameServersForZone::sort` (src/root.rs:81-94): `Vec::sort_by` with
the speed comparator, modelled as a stable merge sort that places `a`
before `b` whenever the comparator does not answer `Greater`. -/
def NameServersForZone.sort (z : NameServersForZone) : NameServersForZone :=
  { z with servers := z.servers.mergeSort (fun a b => (speedCompare a b).isLE) }

/-! ## Splitting domain names and walking the index (src/root.rs) -/

/-- Length of the match of the regex `(([^\\])|(^))\.` beginning exactly
at position `j` of `s` (leftmost-first alternation: the two-character
form `[^\\]\.` is preferred over the anchored `^\.`), `none` when no
match begins at `j`. -/
def reMatchLen (s : List Char) (j : Nat) : Option Nat :=
  if j + 1 < s.length ∧ s.getD j ' ' ≠ '\\' ∧ s.getD (j + 1) ' ' = '.' then some 2
  else if j = 0 ∧ 0 < s.length ∧ s.getD 0 ' ' = '.' then some 1
  else none

/-- First match of the regex at or after position `j`, scanning at most
`fuel` positions. -/
def findFromAux (s : List Char) : Nat → Nat → Option (Nat × Nat)
  | 0, _ => none
  | fuel + 1, j =>
    if s.length ≤ j then none
    else
      match reMatchLen s j with
      | some L => some (j, j + L)
      | none => findFromAux s fuel (j + 1)

/-- First match of the regex at or after position `j` (the scan needs at
most `s.length - j` steps; one extra step of fuel makes the bound
obvious). -/
def findFrom (s : List Char) (j : Nat) : Option (Nat × Nat) :=
  findFromAux s (s.length + 1 - j) j

/-- Successive non-overlapping matches from position `p` on
(`Regex::find_iter`).  Every match is at least one character long, so
`s.length + 1` steps of fuel always suffice. -/
def findIterAux (s : List Char) : Nat → Nat → List (Nat × Nat)
  | 0, _ => []
  | fuel + 1, p =>
    match findFrom s p with
    | none => []
    | some m => m :: findIterAux s fuel m.2

/-- All matches of the separator regex over `s`, in order. -/
def findIter (s : List Char) : List (Nat × Nat) := findIterAux s (s.length + 1) 0

/-- `Root::split_name` (src/root.rs:180-216): cut the domain at every
unescaped dot found by the regex, re-attach the consumed preceding
character of each two-character match, keep a final remainder only when
it starts strictly before the last character, and append a dot to every
piece. -/
def splitName (domain : List Char) : List (List Char) :=
  let ms := findIter domain
  let step := fun (st : Nat × List (List Char)) (m : Nat × Nat) =>
    let s0 := (domain.drop st.1).take (m.1 - st.1)
    let mtxt := (domain.drop m.1).take (m.2 - m.1)
    let s1 := if mtxt.length = 2 ∧ mtxt.getD 0 ' ' ≠ '\\' then s0 ++ [mtxt.getD 0 ' '] else s0
    (m.2, st.2 ++ [s1])
  let r := ms.foldl step (0, [])
  let spl := if r.1 < domain.length - 1 then r.2 ++ [domain.drop r.1] else r.2
  spl.map (fun n => n ++ ['.'])

/-- Exact-key lookup in the `root_addr` map (`HashMap::get`), the map
being carried as an association list. -/
def lookupZone : List (List Char × NameServersForZone) → List Char → Option NameServersForZone
  | [], _ => none
  | (k, v) :: rest, key => if k = key then some v else lookupZone rest key

/-- The candidate-walking loop of `Root::get_nameservers`
(src/root.rs:231-239): take the split labels deepest-last, accumulate
each onto the zone name already matched, and stop at the first candidate
absent from the index, remembering the last present one. -/
def gnsLoop (root_addr : List (List Char × NameServersForZone)) :
    List (List Char) → List Char → Option NameServersForZone →
    List Char × Option NameServersForZone
  | [], zone_name, last => (zone_name, last)
  | zn :: rest, zone_name, last =>
    let z := zn ++ zone_name
    match lookupZone root_addr z with
    | some ns => gnsLoop root_addr rest z (some ns)
    | none => (zone_name, last)

/-- `Root::get_nameservers` (src/root.rs:224-247): walk the reversed
split of the domain and return the deepest entry found; when no candidate
at all was present, fail with the "Did not find the zone" error, whose
payload is the last matched zone name (empty when nothing matched). -/
def getNameservers (root_addr : List (List Char × NameServersForZone))
    (domain : List Char) : Except (List Char) NameServersForZone :=
  let r := gnsLoop root_addr (splitName domain).reverse [] none
  match r.2 with
  | some n => .ok n
  | none => .error r.1

/-! ## Address accumulation of the audit check (src/monitor.rs) -/

/-- The fields of a reply resource record that `Monitor::test` inspects:
its type and its parsed rdata (`ZoneRecord::create_from_wire` always
pairs a record type with the rdata shape of `rr::create_from_type`). -/
structure WireAnswer where
  record_type : RecordType
  rdata : RDATA
deriving DecidableEq, Repr

/-- The answer loop run after the A query in `Monitor::test`
(src/monitor.rs:154-160): keep each answer whose type is A and whose
rdata downcasts to `RDATAa`. -/
def collectAQuery (answer : List WireAnswer) : List IpAddr :=
  answer.filterMap fun res =>
    if res.record_type = RecordType.A then
      match res.rdata with
      | .a ip => some (IpAddr.v4 ip)
      | _ => none
    else none

/-- The answer loop run after the AAAA query in `Monitor::test`
(src/monitor.rs:167-173): the source keeps each answer whose type is A
(not AAAA) and whose rdata downcasts to `RDATAaaaa`. -/
def collectAAAAQuery (answer : List WireAnswer) : List IpAddr :=
  answer.filterMap fun res =>
    if res.record_type = RecordType.A then
      match res.rdata with
      | .aaaa ip => some (IpAddr.v6 ip)
      | _ => none
    else none

/-- The addresses accumulated from one responding nameserver address in
`Monitor::test` (src/monitor.rs:145-180): the A-query harvest followed by
the AAAA-query harvest; this list becomes the result's `ips` when the
server responded. -/
def readAddressesFromServer (aAns aaaaAns : List WireAnswer) : List IpAddr :=
  collectAQuery aAns ++ collectAAAAQuery aaaaAns

/-! ## Compressed-name reading (src/query.rs) -/

mutual

/-- Fuel-indexed model of `qname_namepart` (src/query.rs:550-594),
returning the extended name, the updated outer offset and the
continue/stop flag; `none` means the fuel ran out before the call
returned.  The label branch's `read_buff` slice and the pointer branch's
`buffer[*offset]` index are clamped reads here (Rust panics when they
run past the buffer; no input considered below reaches that). -/
def qnamePartF : Nat → List Nat → List Char → Nat → Option (List Char × Nat × Bool)
  | 0, _, _, _ => none
  | fuel + 1, buffer, dn, offset =>
    if buffer.length ≤ offset then some (dn, offset, false)
    else
      let part_len := buffer.getD offset 0
      if part_len = 0 then some (dn, offset + 1, false)
      else if part_len &&& 192 = 192 then
        let target := (part_len &&& 63) * 256 + buffer.getD (offset + 1) 0
        match qnameInnerF fuel buffer dn target with
        | none => none
        | some dn' => some (dn', offset + 2, false)
      else
        let dn_vec := (buffer.drop (offset + 1)).take part_len
        some ((if 0 < dn.length then dn ++ ['.'] else dn) ++ dn_vec.map Char.ofNat,
          offset + 1 + part_len, true)

/-- Fuel-indexed model of the `while` loop inside the compression branch
of `qname_namepart` (src/query.rs:574-578), which keeps calling
`qname_namepart` at the pointer target until it answers `false` or the
target offset leaves the buffer. -/
def qnameInnerF : Nat → List Nat → List Char → Nat → Option (List Char)
  | 0, _, _, _ => none
  | fuel + 1, buffer, dn, com =>
    if com < buffer.length then
      match qnamePartF fuel buffer dn com with
      | none => none
      | some (dn', com', cont) =>
        if cont then qnameInnerF fuel buffer dn' com' else some dn'
    else some dn

end

/-- Fuel-indexed model of the loop of `read_qname`
(src/query.rs:537-545). -/
def readQnameLoopF : Nat → List Nat → List Char → Nat → Option (List Char × Nat)
  | 0, _, _, _ => none
  | fuel + 1, buff, dest, offset =>
    if offset < buff.length then
      match qnamePartF fuel buff dest offset with
      | none => none
      | some (dest', offset', cont) =>
        if cont then readQnameLoopF fuel buff dest' offset' else some (dest', offset')
    else some (dest, offset)

/-- Fuel-indexed model of `read_qname` (src/query.rs:537-545), returning
the name read and the final offset when the fuel suffices. -/
def readQnameF (fuel : Nat) (buff : List Nat) (offset : Nat) : Option (List Char × Nat) :=
  readQnameLoopF fuel buff [] offset

/-! ## Concrete sample inputs used by the theorems below -/

/-- A single-space whitespace token. -/
def wsTok : ZoneToken := { token := [' '], token_type := .TypeWhite }

/-- A header whose only set flag field is `qr` and whose id is 1 (the id
the query client uses). -/
def headerQrOnly : Header :=
  { id := 1, qr := true, opcode := .O_QUERY, aa := false, tc := false, rd := false,
    ra := false, z := 0, rcode := .NOERROR,
    qdcount := 0, ancount := 0, nscount := 0, arcount := 0 }

/-- An index holding only the root zone `"."`. -/
def rootOnlyIndex : List (List Char × NameServersForZone) :=
  [(".".toList, { zone_name := ".".toList, servers := [] })]

/-- Tokenized zone line `foo -5 IN A 1.2.3.4` (the `-5` lexes as a plain
word token, since the tokenizer's number regex has no sign). -/
def negTTLLine : List ZoneToken :=
  [{ token := "foo".toList, token_type := .TypeToken }, wsTok,
   { token := "-5".toList, token_type := .TypeToken }, wsTok,
   { token := "IN".toList, token_type := .TypeToken }, wsTok,
   { token := "A".toList, token_type := .TypeToken }, wsTok,
   { token := "1.2.3.4".toList, token_type := .TypeToken }]

/-- The record `Zone::create` produces from `negTTLLine` under origin
`"."`. -/
def negTTLRecord : ZoneRecordM :=
  { name := { name := "foo".toList, fqdn := "foo..".toList },
    ttl := -5, rclass := .C_IN, record_type := .A,
    record_type_other := none, rdata := some (.a 16909060) }

/-- Tokenized directive line `$TTL 300`. -/
def sampleTTLLine : List ZoneToken :=
  [{ token := "$TTL".toList, token_type := .TypeDirective }, wsTok,
   { token := "300".toList, token_type := .TypeNumber }]

/-- Tokenized record line `www IN A 10.0.0.1`. -/
def sampleALine : List ZoneToken :=
  [{ token := "www".toList, token_type := .TypeToken }, wsTok,
   { token := "IN".toList, token_type := .TypeToken }, wsTok,
   { token := "A".toList, token_type := .TypeToken }, wsTok,
   { token := "10.0.0.1".toList, token_type := .TypeToken }]

/-- A two-line sample zone file: `$TTL 300` then `www IN A 10.0.0.1`. -/
def sampleZoneLines : List (List ZoneToken) := [sampleTTLLine, sampleALine]

/-- The items `Zone::create` produces from `sampleZoneLines`. -/
def sampleZoneOut : List ZoneItem :=
  (zoneCreate "example.com.".toList sampleZoneLines).getD []

/-- The record at position 1 of `sampleZoneOut`. -/
def sampleZoneRec : ZoneRecordM :=
  match sampleZoneOut.get? 1 with
  | some (.record r) => r
  | _ => ZoneRecordM.default

/-- A record item with ttl 0, used to exercise TTL inheritance. -/
def sampleZeroTtlRecord : ZoneRecordM :=
  { ZoneRecordM.default with name := { name := "www".toList, fqdn := [] } }

/-- A `$TTL 300` directive followed by a ttl-0 record, as parsed items. -/
def sampleItems : List ZoneItem :=
  [ZoneItem.directive { name := "TTL".toList, value := "300".toList },
   ZoneItem.record sampleZeroTtlRecord]

/-! # Theorems -/

/-! ## C5 — tokenizer escape round-trip -/

/-- The escape round-trip fails on a byte string holding a literal
backslash: `escape` leaves `\a` unchanged and `unescape` then strips the
backslash, so `unescape (escape "\a") = "a"`. -/
theorem unescape_escape_backslash_counterexample :
    unescape (escape [92, 97]) = [97] ∧ ([97] : List Nat) ≠ [92, 97] := by decide

/-- Claim C5 (amended): `ZoneLines::unescape` undoes `ZoneLines::escape`
on every byte string that contains no literal backslash (byte 92); the
round-trip fails on some strings containing a backslash, since `escape`
does not escape the backslash itself. -/
theorem unescape_escape_of_no_backslash (s : List Nat)
    (h : ∀ c ∈ s, c < 256 ∧ c ≠ 92) :
    unescape (escape s) = s := by
  induction s with
  | nil => rfl
  | cons c rest ih =>
    obtain ⟨hlt, hne⟩ := h c (List.mem_cons_self c rest)
    have hrest := ih (fun x hx => h x (List.mem_cons_of_mem c hx))
    by_cases h34 : c = 34
    · subst h34
      simp only [escape, if_pos rfl, List.cons_append, List.nil_append]
      simp [unescape, unescEsc, isDigitByte, hrest]
    · by_cases hesc : c % 256 < 32 ∨ 127 ≤ c % 256
      · have hd1 : isDigitByte (48 + c % 256 / 100) = true := by
          simp only [isDigitByte, Bool.and_eq_true, decide_eq_true_eq]; omega
        have hd2 : isDigitByte (48 + c % 256 / 10 % 10) = true := by
          simp only [isDigitByte, Bool.and_eq_true, decide_eq_true_eq]; omega
        have hd3 : isDigitByte (48 + c % 256 % 10) = true := by
          simp only [isDigitByte, Bool.and_eq_true, decide_eq_true_eq]; omega
        have hle : (48 + c % 256 / 100 - 48) * 100 + (48 + c % 256 / 10 % 10 - 48) * 10 +
            (48 + c % 256 % 10 - 48) ≤ 255 := by omega
        simp only [escape, if_neg h34, if_pos hesc, List.cons_append, List.nil_append]
        rw [unescape, if_pos rfl, unescEsc, hd1, if_pos rfl, unescDigit, unescDigit2,
          hd2, hd3, Bool.and_self, if_pos rfl, if_pos hle, hrest]
        have hv : (48 + c % 256 / 100 - 48) * 100 + (48 + c % 256 / 10 % 10 - 48) * 10 +
            (48 + c % 256 % 10 - 48) = c := by omega
        rw [hv]
      · simp only [escape, if_neg h34, if_neg hesc, List.cons_append, List.nil_append]
        rw [unescape, if_neg hne, hrest]

/-- Witness for `unescape_escape_of_no_backslash` at a concrete string
holding a quote, a control byte and a high byte. -/
theorem unescape_escape_of_no_backslash_witness :
    unescape (escape [104, 34, 10, 200]) = [104, 34, 10, 200] :=
  unescape_escape_of_no_backslash [104, 34, 10, 200] (by decide)

/-! ## C7 — owner-name origin resolution -/

/-- A literal that starts with a dot defeats the claimed
`fqdn = x + "." + o` rule: `RecordName::origin` skips the separator dot
for it, yielding `".a" ++ "b."` rather than `".a" ++ "." ++ "b."`. -/
theorem resolveFqdn_leading_dot_counterexample :
    resolveFqdn ".a".toList "b.".toList = ".ab.".toList ∧
    resolveFqdn ".a".toList "b.".toList ≠ (".a" ++ "." ++ "b.").toList := by decide

/-- Helper: a string ending with a dot is non-empty. -/
theorem endsWithDot_ne_nil {l : List Char} (h : endsWithDot l = true) : l ≠ [] := by
  intro hnil; subst hnil; simp [endsWithDot] at h

/-- Helper: appending a non-empty string keeps its last character. -/
theorem endsWithDot_append (a b : List Char) (hb : b ≠ []) :
    endsWithDot (a ++ b) = endsWithDot b := by
  simp [endsWithDot, List.getLast?_append_of_ne_nil a hb]

/-- Claim C7 (amended): under an origin ending with `.`, the resolved
fqdn is the origin for `@`, the literal itself when it already ends with
`.`, and otherwise the literal joined to the origin — with a joining dot
inserted only when the literal does not already start with one; in all
cases the result is non-empty and ends with `.`. -/
theorem resolveFqdn_spec (x o : List Char) (ho : endsWithDot o = true) :
    (x = ['@'] → resolveFqdn x o = o)
  ∧ (endsWithDot x = true → resolveFqdn x o = x)
  ∧ (x ≠ ['@'] → endsWithDot x = false →
      resolveFqdn x o = (if startsWithDot x then x ++ o else x ++ ['.'] ++ o))
  ∧ endsWithDot (resolveFqdn x o) = true
  ∧ resolveFqdn x o ≠ [] := by
  have honil : o ≠ [] := endsWithDot_ne_nil ho
  by_cases hat : x = ['@']
  · subst hat
    refine ⟨fun _ => rfl, ?_, fun hc _ => absurd rfl hc, ?_, ?_⟩
    · intro hdot; simp [endsWithDot] at hdot
    · simpa [resolveFqdn, RecordName.applyOrigin] using ho
    · simpa [resolveFqdn, RecordName.applyOrigin] using honil
  · by_cases hdot : endsWithDot x = true
    · have hx : resolveFqdn x o = x := by
        simp [resolveFqdn, RecordName.applyOrigin, hat, hdot]
      refine ⟨fun hc => absurd hc hat, fun _ => hx, ?_, ?_, ?_⟩
      · intro _ hc
        rw [hdot] at hc
        cases hc
      · rw [hx]; exact hdot
      · rw [hx]; exact endsWithDot_ne_nil hdot
    · have hx : resolveFqdn x o = (if startsWithDot x then x else x ++ ['.']) ++ o := by
        simp [resolveFqdn, RecordName.applyOrigin, hat, hdot]
      refine ⟨fun hc => absurd hc hat, fun hc => absurd hc hdot, ?_, ?_, ?_⟩
      · intro _ _
        rw [hx]
        by_cases hsw : startsWithDot x
        · simp [hsw]
        · simp [hsw, List.append_assoc]
      · rw [hx, endsWithDot_append _ _ honil]; exact ho
      · rw [hx]; simp [honil]

/-- Witness for `resolveFqdn_spec` at `www` under origin
`example.com.`. -/
theorem resolveFqdn_spec_witness :
    resolveFqdn "www".toList "example.com.".toList = "www.example.com.".toList := by
  have h := (resolveFqdn_spec "www".toList "example.com.".toList (by decide)).2.2.1
    (by decide) (by decide)
  rw [h]; decide

/-! ## C3 — header write/read round-trip -/

/-- Claim C3 fails: `Header::write` packs the first flag byte in the
mirror order (`rd` in the most significant bit and `qr` in the least
significant bit), while `Header::read` decodes `qr` from the most
significant bit.  At a header with only `qr` set, the written flag byte
is 1 (so `qr` is NOT in the MSB as claimed), and reading the written
bytes back returns `qr = false` and `rd = true`. -/
theorem header_write_read_mismatch :
    (Header.write headerQrOnly).getD 2 0 = 1 ∧
    (Header.read (Header.write headerQrOnly)).qr = false ∧
    (Header.read (Header.write headerQrOnly)).rd = true ∧
    Header.read (Header.write headerQrOnly) ≠ headerQrOnly := by decide

/-! ## C2 — performance measurement of one server -/

/-- Claim C2's failure clause is wrong: with one success and four
failures among the five queries, the measured speed is `some` (the
accumulated duration divided by five), not `None`. -/
theorem serverSpeed_partial_failure_counterexample :
    serverSpeed [some 10, none, none, none, none] = some 2 ∧
    ([some 10, none, none, none, none] : List (Option Nat)).length = 5 ∧
    (none : Option Nat) ∈ [some 10, none, none, none, none] ∧
    serverSpeed [some 10, none, none, none, none] ≠ none := by decide

/-- Helper: the measurement fold accumulates the successful durations and
flags whether any query succeeded. -/
theorem testLoop_fold (qs : List (Option Nat)) (a : Nat) (b : Bool) :
    qs.foldl (fun s q => match q with | some d => (s.1 + d, true) | none => s) (a, b)
      = (a + (qs.filterMap id).sum, b || qs.any Option.isSome) := by
  induction qs generalizing a b with
  | nil => simp
  | cons q rest ih =>
    cases q with
    | none => simp [List.foldl_cons, ih a b]
    | some d => simp [List.foldl_cons, ih (a + d) true, Nat.add_assoc]

/-- Claim C2 (amended): when all five queries succeed the speed is the
sum of the five durations divided by five; the speed is `None` exactly
when ALL five queries fail — a single failure among successes still
yields `some` of the partial sum divided by five. -/
theorem serverSpeed_spec (qs : List (Option Nat)) (h5 : qs.length = 5) :
    ((∀ q ∈ qs, q.isSome) → serverSpeed qs = some ((qs.filterMap id).sum / 5))
  ∧ (serverSpeed qs = none ↔ ∀ q ∈ qs, q = none) := by
  have hloop : testLoop qs = ((qs.filterMap id).sum, qs.any Option.isSome) := by
    simpa using testLoop_fold qs 0 false
  constructor
  · intro hall
    have hne : qs ≠ [] := by intro hq; rw [hq] at h5; simp at h5
    obtain ⟨q0, hq0⟩ := List.exists_mem_of_ne_nil qs hne
    have hany : qs.any Option.isSome = true := List.any_eq_true.2 ⟨q0, hq0, hall q0 hq0⟩
    simp [serverSpeed, hloop, hany]
  · constructor
    · intro hnone q hq
      by_contra hne
      have hsome : q.isSome := by
        cases q with
        | none => exact absurd rfl hne
        | some d => rfl
      have hany : qs.any Option.isSome = true := List.any_eq_true.2 ⟨q, hq, hsome⟩
      simp [serverSpeed, hloop, hany] at hnone
    · intro hall
      have hany : qs.any Option.isSome = false := by
        rw [List.any_eq_false]
        intro q hq
        rw [hall q hq]
        simp
      simp [serverSpeed, hloop, hany]

/-- Witness for `serverSpeed_spec` at five successful queries summing to
15 nanoseconds. -/
theorem serverSpeed_spec_witness :
    serverSpeed [some 1, some 2, some 3, some 4, some 5] = some 3 := by
  have h := (serverSpeed_spec [some 1, some 2, some 3, some 4, some 5] (by decide)).1 (by decide)
  rw [h]; decide

/-! ## C4 — candidate zones of the delegation walker -/

/-- Claim C4 fails: with an index holding only the root zone `"."`,
`Root::get_nameservers` on `a.b.com.` returns the "zone not found" error
(payload: the empty matched-zone name) instead of the root zone's
nameserver list — the root `"."` is never generated as a candidate. -/
theorem getNameservers_skips_root_counterexample :
    getNameservers rootOnlyIndex "a.b.com.".toList
      = Except.error ([] : List Char) := rfl

/-- Claim C4 (amended): the candidates are built by accumulating suffix
labels starting at the LAST split label — for `a.b.com.` they are
`com.`, `b.com.`, `a.b.com.`, and the root zone `.` is never tried; the
walk keeps the deepest candidate present in the index and stops at the
first absent one, so the deepest present suffix's list is returned, and
when even `com.` is absent the result is an error although `.` is in the
index. -/
theorem getNameservers_deepest_without_root (nsRoot nsCom nsB : NameServersForZone) :
    splitName "a.b.com.".toList = ["a.".toList, "b.".toList, "com.".toList]
  ∧ getNameservers [(".".toList, nsRoot)] "a.b.com.".toList = Except.error []
  ∧ getNameservers [(".".toList, nsRoot), ("com.".toList, nsCom)] "a.b.com.".toList
      = Except.ok nsCom
  ∧ getNameservers [(".".toList, nsRoot), ("com.".toList, nsCom), ("b.com.".toList, nsB)]
      "a.b.com.".toList = Except.ok nsB := by
  exact ⟨by decide, rfl, rfl, rfl⟩

/-! ## C1 — AAAA answers of the audit address check -/

/-- Helper: the A-query loop only ever produces IPv4 addresses. -/
theorem collectAQuery_only_v4 (answer : List WireAnswer) (x : IpAddr)
    (hx : x ∈ collectAQuery answer) : ∃ a, x = IpAddr.v4 a := by
  obtain ⟨r, _, hr⟩ := List.mem_filterMap.1 hx
  by_cases ht : r.record_type = RecordType.A
  · rw [if_pos ht] at hr
    split at hr
    · rename_i ip _
      simp only [Option.some.injEq] at hr
      exact ⟨ip, hr.symm⟩
    · cases hr
  · rw [if_neg ht] at hr; cases hr

/-- Claim C1 fails in the code: the AAAA-answer loop of `Monitor::test`
filters on `record_type == RecordType::A` while downcasting to
`RDATAaaaa`; since the wire parser always pairs a record type with the
rdata shape of `rr::create_from_type`, the two conditions are mutually
exclusive and no AAAA answer is ever accumulated — the `ips` list can
never contain an IPv6 address. -/
theorem aaaa_answers_never_collected (aAns aaaaAns : List WireAnswer)
    (_ha : ∀ r ∈ aAns, rdataMatchesType r.record_type r.rdata = true)
    (hb : ∀ r ∈ aaaaAns, rdataMatchesType r.record_type r.rdata = true) :
    collectAAAAQuery aaaaAns = [] ∧
    ∀ ip, IpAddr.v6 ip ∉ readAddressesFromServer aAns aaaaAns := by
  have hempty : ∀ (l : List WireAnswer),
      (∀ r ∈ l, rdataMatchesType r.record_type r.rdata = true) →
      collectAAAAQuery l = [] := by
    intro l hl
    induction l with
    | nil => rfl
    | cons r rest ih =>
      have hr := hl r (List.mem_cons_self r rest)
      have hrest := ih (fun x hx => hl x (List.mem_cons_of_mem r hx))
      have hhead : (if r.record_type = RecordType.A then
          match r.rdata with
          | .aaaa ip => some (IpAddr.v6 ip)
          | _ => none
        else none) = none := by
        by_cases ht : r.record_type = RecordType.A
        · rw [if_pos ht]
          split
          · rename_i ip heq
            rw [ht, heq] at hr
            simp [rdataMatchesType] at hr
          · rfl
        · rw [if_neg ht]
      simpa [collectAAAAQuery, hhead] using hrest
  refine ⟨hempty aaaaAns hb, ?_⟩
  intro ip hip
  rw [readAddressesFromServer, hempty aaaaAns hb, List.append_nil] at hip
  obtain ⟨a, ha'⟩ := collectAQuery_only_v4 aAns _ hip
  cases ha'

/-- Witness for `aaaa_answers_never_collected`: a reply whose answer
section holds one AAAA record (address `::1`) yields no accumulated
address at all. -/
theorem aaaa_answers_never_collected_witness :
    collectAAAAQuery [{ record_type := RecordType.AAAA, rdata := RDATA.aaaa 1 }] = [] ∧
    ∀ ip, IpAddr.v6 ip ∉ readAddressesFromServer
      [{ record_type := RecordType.A, rdata := RDATA.a 16909060 }]
      [{ record_type := RecordType.AAAA, rdata := RDATA.aaaa 1 }] :=
  aaaa_answers_never_collected _ _ (by decide) (by decide)

/-! ## C6 — ordering after `NameServersForZone::sort` -/

/-- Helper: `Ordering.isLE` of a natural-number comparison means `≤`. -/
theorem natCompare_isLE (x y : Nat) : (compare x y).isLE = true ↔ x ≤ y := by
  rw [Nat.compare_def_lt]
  split
  · simpa [Ordering.isLE] using by omega
  · split
    · rename_i h1 h2
      simp [Ordering.isLE]
      omega
    · rename_i h1 h2
      simpa [Ordering.isLE] using by omega

/-- Helper: the speed comparator's non-`Greater` relation is
transitive. -/
theorem speedLe_trans (a b c : NameServer) (h1 : (speedCompare a b).isLE = true)
    (h2 : (speedCompare b c).isLE = true) : (speedCompare a c).isLE = true := by
  rcases hsa : a.speed with _ | x <;> rcases hsb : b.speed with _ | y <;>
      rcases hsc : c.speed with _ | z <;>
      simp only [speedCompare, hsa, hsb, hsc] at h1 h2 ⊢
  · rfl
  · exact absurd h2 (by decide)
  · exact absurd h1 (by decide)
  · exact absurd h1 (by decide)
  · rfl
  · exact absurd h2 (by decide)
  · rfl
  · rw [natCompare_isLE] at h1 h2 ⊢
    omega

/-- Helper: the speed comparator's non-`Greater` relation is total. -/
theorem speedLe_total (a b : NameServer) :
    ((speedCompare a b).isLE || (speedCompare b a).isLE) = true := by
  rcases hsa : a.speed with _ | x <;> rcases hsb : b.speed with _ | y <;>
      simp only [speedCompare, hsa, hsb]
  · rfl
  · rfl
  · rfl
  · rcases Nat.le_total x y with h | h
    · rw [(natCompare_isLE x y).2 h, Bool.true_or]
    · rw [(natCompare_isLE y x).2 h, Bool.or_true]

/-- Claim C6: after `NameServersForZone::sort`, no unmeasured server
(speed `None`) precedes a measured one, measured servers appear in
non-decreasing speed order, and the server list is a permutation of the
original. -/
theorem nsz_sort_ordered_perm (z : NameServersForZone) :
    ((z.sort).servers.Pairwise fun a b =>
      (a.speed = none → b.speed = none) ∧
      ∀ x y, a.speed = some x → b.speed = some y → x ≤ y)
  ∧ (z.sort).servers.Perm z.servers := by
  constructor
  · have hs := @List.sorted_mergeSort NameServer
      (fun a b => (speedCompare a b).isLE)
      (fun a b c => speedLe_trans a b c)
      (fun a b => speedLe_total a b) z.servers
    refine List.Pairwise.imp ?_ hs
    intro a b h
    constructor
    · intro hna
      rcases hsb : b.speed with _ | y
      · rfl
      · simp only [speedCompare, hna, hsb] at h
        exact absurd h (by decide)
    · intro x y hx hy
      simp only [speedCompare, hx, hy] at h
      exact (natCompare_isLE x y).1 h
  · exact List.mergeSort_perm z.servers _

/-! ## C8 — TTL inheritance in `Zone::create` -/

/-- Helper: applying an origin never changes a record's ttl. -/
theorem applyOrigin_ttl (r : ZoneRecordM) (o : List Char) : (r.applyOrigin o).ttl = r.ttl := rfl

/-- Helper: the ttl component of the pass state after one item equals one
`lastTTLFrom` step. -/
theorem zonePassItem_ttlState (st : List Char × Int) (it : ZoneItem) :
    (zonePassItem st it).1.2 = lastTTLFrom st.2 [it] := by
  cases it with
  | record r => rfl
  | directive d =>
    simp only [zonePassItem, lastTTLFrom, List.foldl]
    split_ifs with h1 h2 <;> try rfl
    rw [h1] at h2
    exact absurd h2 (by decide)

/-- Helper: the `Zone::create` pass fills a zero ttl with the running
default, which is the `lastTTLFrom` of the items already passed. -/
theorem zonePass_fill_ttl (st : List Char × Int) (items : List ZoneItem) (i : Nat)
    (r : ZoneRecordM) (hi : items.get? i = some (.record r)) (h0 : r.ttl = 0) :
    ∃ r', (zonePassGo st items).get? i = some (.record r') ∧
      r'.ttl = lastTTLFrom st.2 (items.take i) := by
  induction items generalizing st i with
  | nil => simp at hi
  | cons it rest ih =>
    cases i with
    | zero =>
      have hit : it = ZoneItem.record r := by
        have : some it = some (ZoneItem.record r) := hi
        exact Option.some_injective _ this
      subst hit
      refine ⟨{ (r.applyOrigin st.1) with ttl := st.2 }, ?_, rfl⟩
      simp [zonePassGo, zonePassItem, applyOrigin_ttl, h0]
    | succ n =>
      have hi' : rest.get? n = some (ZoneItem.record r) := hi
      obtain ⟨r', hr1, hr2⟩ := ih (zonePassItem st it).1 n hi'
      refine ⟨r', hr1, ?_⟩
      rw [hr2, zonePassItem_ttlState, List.take_succ_cons]
      rfl

/-- Claim C8: after the `Zone::create` pass, a record whose ttl was zero
after its own line parse carries the value of the most recent `$TTL`
directive preceding it in file order (0 when there is none), and a
`$TTL` directive whose value does not parse as an `i32` leaves the pass
state — and hence the default TTL — unchanged. -/
theorem zoneCreate_ttl_inheritance (origin0 : List Char) (items : List ZoneItem)
    (i : Nat) (r : ZoneRecordM) (hi : items.get? i = some (.record r)) (h0 : r.ttl = 0) :
    (∃ r', (zonePassGo (origin0, 0) items).get? i = some (.record r') ∧
      r'.ttl = lastTTLDirective (items.take i))
  ∧ ∀ st (d : ZoneDirectiveM) rest, upStr d.name = "TTL".toList →
      parseI32 d.value = none →
      zonePassGo st (.directive d :: rest) = .directive d :: zonePassGo st rest := by
  constructor
  · exact zonePass_fill_ttl (origin0, 0) items i r hi h0
  · intro st d rest hname hparse
    have hno : ¬ upStr d.name = "ORIGIN".toList := by rw [hname]; decide
    simp [zonePassGo, zonePassItem, hname, hno, hparse]

/-- Witness for `zoneCreate_ttl_inheritance`: a `$TTL 300` directive
followed by a ttl-0 record makes that record inherit 300. -/
theorem zoneCreate_ttl_inheritance_witness :
    ∃ r', (zonePassGo ("example.com.".toList, 0) sampleItems).get? 1
        = some (ZoneItem.record r') ∧
      r'.ttl = lastTTLDirective (sampleItems.take 1) :=
  (zoneCreate_ttl_inheritance "example.com.".toList sampleItems 1
    sampleZeroTtlRecord rfl rfl).1

/-! ## C9 — sign of parsed TTLs -/

/-- Claim C9 fails: the line `foo -5 IN A 1.2.3.4` parses successfully
(`str::parse::<i32>` accepts the sign) and yields a record whose ttl is
-5; the `Zone::create` fill-in leaves it alone because it is not 0. -/
theorem zone_negative_ttl_counterexample :
    zoneCreate ".".toList [negTTLLine] = some [ZoneItem.record negTTLRecord] ∧
    negTTLRecord.ttl < 0 := by
  exact ⟨by decide, by decide⟩

/-- Helper: away from the TTL position, one `from_iter` step never
changes the ttl and never returns to the TTL position. -/
theorem fromIterStep_preserve (pos : RecordPos) (r : ZoneRecordM) (acc : List ZoneToken)
    (tok : ZoneToken) (hpos : pos ≠ RecordPos.TTL) (pos' : RecordPos) (r' : ZoneRecordM)
    (acc' : List ZoneToken) (h : fromIterStep pos r acc tok = some (pos', r', acc')) :
    r'.ttl = r.ttl ∧ pos' ≠ RecordPos.TTL := by
  cases pos with
  | TTL => exact absurd rfl hpos
  | IN =>
    by_cases hc : isClassTok tok.token
    · simp only [fromIterStep, hc, if_true, Option.some.injEq, Prod.mk.injEq] at h
      obtain ⟨h1, h2, _⟩ := h
      subst h1; subst h2
      exact ⟨rfl, by decide⟩
    · simp [fromIterStep, hc] at h
  | RTYPE =>
    simp only [fromIterStep, Option.some.injEq, Prod.mk.injEq] at h
    obtain ⟨h1, h2, _⟩ := h
    subst h1; subst h2
    exact ⟨rfl, by decide⟩
  | RDATA =>
    simp only [fromIterStep, Option.some.injEq, Prod.mk.injEq] at h
    obtain ⟨h1, h2, _⟩ := h
    subst h1; subst h2
    exact ⟨rfl, by decide⟩

/-- Helper: once the `from_iter` loop has left the TTL position, the ttl
field never changes again. -/
theorem fromIterLoop_ttl_fixed :
    ∀ (tokens : List ZoneToken) (pos : RecordPos) (r : ZoneRecordM) (acc : List ZoneToken),
      pos ≠ RecordPos.TTL → ∀ out, fromIterLoop tokens pos r acc = some out →
      out.1.ttl = r.ttl := by
  intro tokens pos r acc
  induction tokens, pos, r, acc using fromIterLoop.induct with
  | case1 pos r acc =>
    intro _ out h
    have h' : (r, acc) = out := Option.some_injective _ h
    rw [← h']
  | case2 tok rest pos r acc hw ih =>
    intro hpos out h
    simp only [fromIterLoop, if_pos hw] at h
    exact ih hpos out h
  | case3 tok rest pos r acc hw hstep =>
    intro hpos out h
    simp only [fromIterLoop, if_neg hw, hstep] at h
    exact Option.noConfusion h
  | case4 tok pos r acc hw pos' r' acc' hstep =>
    intro hpos out h
    simp only [fromIterLoop, if_neg hw, hstep] at h
    have h' : (r', acc') = out := Option.some_injective _ h
    rw [← h']
    exact (fromIterStep_preserve pos r acc tok hpos pos' r' acc' hstep).1
  | case5 tok pos r acc hw pos' r' acc' hstep t rest htw ih =>
    intro hpos out h
    simp only [fromIterLoop, if_neg hw, hstep, if_pos htw] at h
    obtain ⟨hr, hp⟩ := fromIterStep_preserve pos r acc tok hpos pos' r' acc' hstep
    rw [← hr]
    exact ih hp out h
  | case6 tok pos r acc hw pos' r' acc' hstep t rest htw =>
    intro hpos out h
    simp only [fromIterLoop, if_neg hw, hstep, if_neg htw] at h
    exact Option.noConfusion h

/-- Helper: the ttl produced by the `from_iter` loop is the starting ttl
unless the first non-whitespace token parses as an `i32`, in which case
it is that parse. -/
theorem fromIterLoop_ttl_start :
    ∀ (tokens : List ZoneToken) (r : ZoneRecordM) (acc : List ZoneToken) out,
      fromIterLoop tokens RecordPos.TTL r acc = some out →
      out.1.ttl = r.ttl ∨ ∃ tok, firstNonWhite tokens = some tok ∧
        parseI32 tok.token = some out.1.ttl := by
  intro tokens
  induction tokens with
  | nil =>
    intro r acc out h
    have h' : (r, acc) = out := Option.some_injective _ h
    rw [← h']
    exact Or.inl rfl
  | cons tok rest ih =>
    intro r acc out h
    by_cases hw : tok.token_type = TokenType.TypeWhite
    · simp only [fromIterLoop, if_pos hw] at h
      rcases ih r acc out h with h1 | ⟨t, ht1, ht2⟩
      · exact Or.inl h1
      · exact Or.inr ⟨t, by simp [firstNonWhite, hw, ht1], ht2⟩
    · have hfnw : firstNonWhite (tok :: rest) = some tok := by
        simp [firstNonWhite, hw]
      cases hstep : fromIterStep RecordPos.TTL r acc tok with
      | none =>
        simp only [fromIterLoop, if_neg hw, hstep] at h
        exact Option.noConfusion h
      | some triple =>
        obtain ⟨pos', r', acc'⟩ := triple
        have hout : out.1.ttl = r'.ttl ∧ pos' ≠ RecordPos.TTL ∨
            (out = (r', acc') ∧ True) := by
          cases rest with
          | nil =>
            simp only [fromIterLoop, if_neg hw, hstep] at h
            exact Or.inr ⟨(Option.some_injective _ h).symm, trivial⟩
          | cons a rest2 =>
            by_cases haw : a.token_type = TokenType.TypeWhite
            · simp only [fromIterLoop, if_neg hw, hstep, if_pos haw] at h
              -- need pos' ≠ TTL to use fromIterLoop_ttl_fixed
              rcases hstep' : parseI32 tok.token with _ | t
              · -- class branch of the TTL step
                simp only [fromIterStep, hstep'] at hstep
                by_cases hc : isClassTok tok.token
                · simp only [hc, if_true, Option.some.injEq, Prod.mk.injEq] at hstep
                  obtain ⟨h1, _, _⟩ := hstep
                  refine Or.inl ⟨fromIterLoop_ttl_fixed rest2 pos' r' acc' ?_ out h, ?_⟩ <;>
                    rw [← h1] <;> decide
                · simp [hc] at hstep
              · simp only [fromIterStep, hstep', Option.some.injEq, Prod.mk.injEq] at hstep
                obtain ⟨h1, _, _⟩ := hstep
                refine Or.inl ⟨fromIterLoop_ttl_fixed rest2 pos' r' acc' ?_ out h, ?_⟩ <;>
                  rw [← h1] <;> decide
            · simp only [fromIterLoop, if_neg hw, hstep, if_neg haw] at h
              exact Option.noConfusion h
        -- now split on the TTL step itself
        rcases hp : parseI32 tok.token with _ | t
        · -- no integer: the class branch keeps the ttl
          simp only [fromIterStep, hp] at hstep
          by_cases hc : isClassTok tok.token
          · simp only [hc, if_true, Option.some.injEq, Prod.mk.injEq] at hstep
            obtain ⟨_, h2, _⟩ := hstep
            rcases hout with ⟨hfix, _⟩ | ⟨hout', _⟩
            · rw [hfix, ← h2]
              exact Or.inl rfl
            · rw [hout', ← h2]
              exact Or.inl rfl
          · simp [hc] at hstep
        · -- integer TTL token: the ttl becomes t
          simp only [fromIterStep, hp] at hstep
          simp only [Option.some.injEq, Prod.mk.injEq] at hstep
          obtain ⟨_, h2, _⟩ := hstep
          rcases hout with ⟨hfix, _⟩ | ⟨hout', _⟩
          · rw [hfix, ← h2]
            exact Or.inr ⟨tok, hfnw, by rw [hp]⟩
          · rw [hout', ← h2]
            exact Or.inr ⟨tok, hfnw, by rw [hp]⟩

/-- Helper: the ttl of a record built by `ZoneRecord::from_iter` is the
starting ttl or the `i32` parse of the first non-whitespace token. -/
theorem fromIter_ttl (r0 : ZoneRecordM) (tokens : List ZoneToken) (r : ZoneRecordM)
    (h : ZoneRecordM.fromIter r0 tokens = some r) :
    r.ttl = r0.ttl ∨ ∃ tok, firstNonWhite tokens = some tok ∧
      parseI32 tok.token = some r.ttl := by
  unfold ZoneRecordM.fromIter at h
  cases hl : fromIterLoop tokens RecordPos.TTL r0 [] with
  | none =>
    rw [hl] at h
    exact Option.noConfusion h
  | some pr =>
    obtain ⟨r1, rtoks⟩ := pr
    rw [hl] at h
    dsimp only at h
    cases hrd : rdataFromTokens r1.record_type rtoks with
    | none => rw [hrd] at h; cases h
    | some rd =>
      rw [hrd] at h
      have hr : { r1 with rdata := some rd } = r := Option.some_injective _ h
      have httl : r.ttl = r1.ttl := by rw [← hr]
      rcases fromIterLoop_ttl_start tokens r0 [] (r1, rtoks) hl with h1 | ⟨tok, ht1, ht2⟩
      · exact Or.inl (by rw [httl]; exact h1)
      · exact Or.inr ⟨tok, ht1, by rw [httl]; exact ht2⟩

/-- Helper: the ttl of a record line parsed by `ZoneRecord::create` is 0
or the `i32` parse of the line's first token after the owner name. -/
theorem zoneRecordCreate_ttl (line : List ZoneToken) (r : ZoneRecordM)
    (h : zoneRecordCreate line = some (ZoneItem.record r)) :
    r.ttl = 0 ∨ ∃ tok, firstNonWhite (line.drop 1) = some tok ∧
      parseI32 tok.token = some r.ttl := by
  cases line with
  | nil => cases h
  | cons tok rest =>
    by_cases hd : tok.token.head? = some '$'
    · simp only [zoneRecordCreate, if_pos hd] at h
      cases hfnw : firstNonWhite rest with
      | none => rw [hfnw] at h; cases h
      | some v => rw [hfnw] at h; cases h
    · simp only [zoneRecordCreate, if_neg hd] at h
      cases hfi : ZoneRecordM.fromIter
          { ZoneRecordM.default with name := { name := tok.token, fqdn := [] } } rest with
      | none => rw [hfi] at h; cases h
      | some r2 =>
        rw [hfi] at h
        have hr : r2 = r := by
          have := Option.some_injective _ h
          exact ZoneItem.record.inj this
        subst hr
        exact fromIter_ttl _ rest r2 hfi

/-- Helper: a successful `mapM` over `Option` maps positions one to
one. -/
theorem mapM_option_get {α β : Type} (f : α → Option β) :
    ∀ (l : List α) (l' : List β), l.mapM f = some l' →
      ∀ i b, l'.get? i = some b → ∃ a, l.get? i = some a ∧ f a = some b := by
  intro l
  induction l with
  | nil =>
    intro l' h i b hb
    simp only [List.mapM_nil, Option.pure_def, Option.some.injEq] at h
    subst h
    simp at hb
  | cons a rest ih =>
    intro l' h i b hb
    rw [List.mapM_cons] at h
    cases hfa : f a with
    | none => rw [hfa] at h; simp at h
    | some b0 =>
      rw [hfa] at h
      cases hrest : rest.mapM f with
      | none => rw [hrest] at h; simp at h
      | some bs =>
        rw [hrest] at h
        simp only [Option.pure_def, Option.bind_eq_bind, Option.some_bind,
          Option.some.injEq] at h
        subst h
        cases i with
        | zero =>
          simp only [List.get?] at hb
          have : b0 = b := Option.some_injective _ hb
          subst this
          exact ⟨a, rfl, hfa⟩
        | succ n => exact ih bs hrest n b hb

/-- Helper: the `Zone::create` pass keeps every ttl non-negative when the
incoming default, every record ttl and every parsed `$TTL` value are
non-negative. -/
theorem zonePassGo_ttl_nonneg :
    ∀ (items : List ZoneItem) (st : List Char × Int), 0 ≤ st.2 →
      (∀ i r, items.get? i = some (ZoneItem.record r) → 0 ≤ r.ttl) →
      (∀ i d, items.get? i = some (ZoneItem.directive d) →
        ∀ t, parseI32 d.value = some t → 0 ≤ t) →
      ∀ i r, (zonePassGo st items).get? i = some (ZoneItem.record r) → 0 ≤ r.ttl := by
  intro items
  induction items with
  | nil =>
    intro st _ _ _ i r h
    simp [zonePassGo] at h
  | cons it rest ih =>
    intro st h0 hrec hdir i r h
    have hst' : 0 ≤ (zonePassItem st it).1.2 := by
      cases it with
      | record r0 => exact h0
      | directive d =>
        simp only [zonePassItem]
        split_ifs with h1 h2
        · exact h0
        · cases hp : parseI32 d.value with
          | none => simpa using h0
          | some t => simpa using hdir 0 d rfl t hp
        · exact h0
    cases i with
    | zero =>
      cases it with
      | directive d =>
        have hsnd : (zonePassItem st (ZoneItem.directive d)).2 = ZoneItem.directive d := by
          simp only [zonePassItem]
          split_ifs <;> rfl
        have h' : (zonePassItem st (ZoneItem.directive d)).2 = ZoneItem.record r :=
          Option.some_injective _ h
        rw [hsnd] at h'
        cases h'
      | record r0 =>
        have h00 : 0 ≤ r0.ttl := hrec 0 r0 rfl
        have h' : (zonePassItem st (ZoneItem.record r0)).2 = ZoneItem.record r :=
          Option.some_injective _ h
        simp only [zonePassItem] at h'
        by_cases hz : (r0.applyOrigin st.1).ttl = 0
        · rw [if_pos hz] at h'
          have := ZoneItem.record.inj h'
          rw [← this]
          exact h0
        · rw [if_neg hz] at h'
          have := ZoneItem.record.inj h'
          rw [← this]
          rw [applyOrigin_ttl] at hz ⊢
          exact h00
    | succ n =>
      exact ih (zonePassItem st it).1 hst' (fun i r hh => hrec (i + 1) r hh)
        (fun i d hh => hdir (i + 1) d hh) n r h

/-- Claim C9 (amended): every record produced by `Zone::create` has a
non-negative ttl PROVIDED that on every line the first non-whitespace
token after the owner (the TTL field of a record line, the value of a
directive line) does not parse as a negative `i32`; without that proviso
the invariant fails, since `parse::<i32>` accepts negative TTL tokens
(see the counterexample). -/
theorem zoneCreate_ttl_nonneg (origin0 : List Char) (lines : List (List ZoneToken))
    (out : List ZoneItem) (hc : zoneCreate origin0 lines = some out)
    (h : ∀ line ∈ lines, ∀ tok, firstNonWhite (line.drop 1) = some tok →
      0 ≤ (parseI32 tok.token).getD 0) :
    ∀ i r, out.get? i = some (ZoneItem.record r) → 0 ≤ r.ttl := by
  unfold zoneCreate at hc
  cases hm : lines.mapM zoneRecordCreate with
  | none =>
    rw [hm] at hc
    exact Option.noConfusion hc
  | some items =>
    rw [hm] at hc
    dsimp only [Option.map] at hc
    have hout : zonePassGo (origin0, 0) items = out := Option.some_injective _ hc
    subst hout
    apply zonePassGo_ttl_nonneg items (origin0, 0) (by simp)
    · intro i r hi
      obtain ⟨line, hl1, hl2⟩ := mapM_option_get zoneRecordCreate lines items hm i _ hi
      have hline : line ∈ lines := List.get?_mem hl1
      rcases zoneRecordCreate_ttl line r hl2 with h1 | ⟨tok, ht1, ht2⟩
      · omega
      · have hh := h line hline tok ht1
        rw [ht2] at hh
        simpa using hh
    · intro i d hi t hp
      obtain ⟨line, hl1, hl2⟩ := mapM_option_get zoneRecordCreate lines items hm i _ hi
      have hline : line ∈ lines := List.get?_mem hl1
      cases line with
      | nil => cases hl2
      | cons tok rest =>
        by_cases hd : tok.token.head? = some '$'
        · simp only [zoneRecordCreate, if_pos hd] at hl2
          cases hfnw : firstNonWhite rest with
          | none =>
            rw [hfnw] at hl2
            exact Option.noConfusion hl2
          | some v =>
            rw [hfnw] at hl2
            dsimp only [Option.map] at hl2
            have hl2 := Option.some_injective _ hl2
            have hv : d.value = v.token := by
              have := ZoneItem.directive.inj hl2
              rw [← this]
            have hh := h (tok :: rest) hline v hfnw
            rw [← hv, hp] at hh
            simpa using hh
        · simp only [zoneRecordCreate, if_neg hd] at hl2
          cases hfi : ZoneRecordM.fromIter
              { ZoneRecordM.default with name := { name := tok.token, fqdn := [] } } rest with
          | none =>
            rw [hfi] at hl2
            exact Option.noConfusion hl2
          | some r2 =>
            rw [hfi] at hl2
            dsimp only [Option.map] at hl2
            exact ZoneItem.noConfusion (Option.some_injective _ hl2)

/-- Witness for `zoneCreate_ttl_nonneg` on the two-line sample zone file
(`$TTL 300`, then `www IN A 10.0.0.1`). -/
theorem zoneCreate_ttl_nonneg_witness : 0 ≤ sampleZoneRec.ttl :=
  zoneCreate_ttl_nonneg "example.com.".toList sampleZoneLines sampleZoneOut rfl
    (by decide) 1 sampleZoneRec rfl

/-! ## C10 — termination of the compressed-name reader -/

/-- The fuel model is not vacuous: on a plain label-terminated name the
reader returns the name and the advanced offset. -/
theorem readQnameF_label_example :
    readQnameF 10 [2, 97, 98, 0] 0 = some ("ab".toList, 4) := rfl

/-- The fuel model follows forward compression pointers: a pointer at
offset 3 to the name at offset 0 reads that name without advancing the
outer cursor past the pointer bytes. -/
theorem readQnameF_pointer_example :
    readQnameF 10 [1, 97, 0, 192, 0] 3 = some ("a".toList, 5) := rfl

/-- Helper: on the two-byte buffer `C0 00` — a compression pointer whose
14-bit target is its own offset 0 — neither `qname_namepart` nor its
inner pointer-following loop ever returns, whatever the fuel. -/
theorem qname_cycle_no_fuel (fuel : Nat) :
    (∀ dn, qnamePartF fuel [192, 0] dn 0 = none) ∧
      (∀ dn, qnameInnerF fuel [192, 0] dn 0 = none) := by
  induction fuel with
  | zero => exact ⟨fun _ => rfl, fun _ => rfl⟩
  | succ n ih =>
    constructor
    · intro dn
      have hg : qnamePartF (n + 1) [192, 0] dn 0
          = match qnameInnerF n [192, 0] dn 0 with
            | none => none
            | some dn2 => some (dn2, 2, false) := rfl
      rw [hg, ih.2 dn]
    · intro dn
      have hg : qnameInnerF (n + 1) [192, 0] dn 0
          = match qnamePartF n [192, 0] dn 0 with
            | none => none
            | some (dn2, com2, cont) =>
              if cont then qnameInnerF n [192, 0] dn2 com2 else some dn2 := rfl
      rw [hg, ih.1 dn]

/-- Claim C10 fails in the code: `read_qname` does not terminate on every
input — on the buffer `C0 00`, whose compression pointer targets itself,
the recursion of `qname_namepart` never returns (the fuel-indexed model
exhausts every finite fuel), where terminating runs need only fuel
proportional to the buffer (see the two examples above). -/
theorem readQname_self_pointer_never_returns (fuel : Nat) :
    readQnameF fuel [192, 0] 0 = none := by
  cases fuel with
  | zero => rfl
  | succ n =>
    have hg : readQnameF (n + 1) [192, 0] 0
        = match qnamePartF n [192, 0] [] 0 with
          | none => none
          | some (d, o, c) => if c then readQnameLoopF n [192, 0] d o else some (d, o) := rfl
    rw [hg, (qname_cycle_no_fuel n).1 []]

end DnsAudit
